import Mathlib

/-!
# Verification of the Excel color/price extraction core (`main.py`)

A shallow embedding of the extraction engine of the repository's single
source file.  Cell values are modelled by an inductive `Cell` (Python
`None`, strings, and non-string values represented by their `str()`
form); Python numbers are modelled exactly by `PyNum` (machine floats
are idealised as rationals — every numeric literal appearing in the
concrete test inputs is exactly representable, so no rounding is
involved in any statement below); fallible spreadsheet reads are
modelled by `Except`.
-/

namespace Tostem

/-- The whitespace class stripped by Python's `str.strip()` and matched
by the regex class `\s` (ASCII part; the inputs at issue are ASCII/Thai
text without exotic unicode spaces). -/
def isPyWs (c : Char) : Bool :=
  c = ' ' || c = '\t' || c = '\n' || c = '\r' || c = '\x0b' || c = '\x0c'

/-- Python `str.strip()`. -/
def pyStrip (s : String) : String :=
  String.mk (((s.toList.dropWhile isPyWs).reverse.dropWhile isPyWs).reverse)

/-- Python `str.upper()` (ASCII case mapping; the strings it is applied
to — hex color codes — are ASCII). -/
def pyToUpper (s : String) : String := String.mk (s.toList.map Char.toUpper)

/-- Python `str.lower()` (ASCII case mapping; Thai text has no case, so
this agrees with Python on all inputs at issue). -/
def pyToLower (s : String) : String := String.mk (s.toList.map Char.toLower)

/-- `re.sub(r'[,\s]', '', s)` — drop commas and whitespace. -/
def stripCommaWs (s : String) : String :=
  String.mk (s.toList.filter (fun c => !(c = ',' || isPyWs c)))

/-- `re.sub(r'[^\d.-]', '', s)` — keep only digits, `.` and `-`. -/
def stripNonNum (s : String) : String :=
  String.mk (s.toList.filter (fun c => c.isDigit || c = '.' || c = '-'))

/-- A Python number: `int` or `float` (floats idealised as rationals). -/
inductive PyNum where
  | int (n : Int)
  | float (q : Rat)
deriving DecidableEq, Repr

/-- Numeric value of a `PyNum` (Python compares `int` and `float`
numerically). -/
def PyNum.val : PyNum → Rat
  | .int n => (n : Rat)
  | .float q => q

/-- Decimal value of a digit list. -/
def digitsVal (l : List Char) : Nat :=
  l.foldl (fun a c => a * 10 + (c.toNat - 48)) 0

/-- Parse an unsigned Python float literal over the alphabet
`{0-9, '.', '-'}`: digits, optionally with a single dot, at least one
digit overall.  (Any `-` in the body makes a char fail `isDigit` and
the parse fail, exactly as `float()` raises.) -/
def parseUnsigned (l : List Char) : Option Rat :=
  let ip := l.takeWhile (fun c => c != '.')
  let rest := l.drop ip.length
  match rest with
  | [] => if ip ≠ [] && ip.all Char.isDigit then some (mkRat (digitsVal ip) 1) else none
  | _ :: fp =>
    if (ip ≠ [] || fp ≠ []) && ip.all Char.isDigit && fp.all Char.isDigit then
      some (mkRat (digitsVal ip * 10 ^ fp.length + digitsVal fp) (10 ^ fp.length))
    else none

/-- Python `float(s)` on a string made only of digits, `.` and `-`:
`some` value or `none` when `float()` would raise `ValueError`.  On this
alphabet `float()` can never return `NaN` or an infinity, so the
`math.isnan` test in the source is unreachable and the result is a
plain rational. -/
def pyFloat (s : String) : Option Rat :=
  match s.toList with
  | '-' :: rest => (parseUnsigned rest).map (fun q => -q)
  | l => parseUnsigned l

/-- A spreadsheet cell value as seen through `pandas`: Python `None`, a
string, or any non-string value represented by its `str()` rendering
(so e.g. an empty cell's `NaN` is `vother "nan"`). -/
inductive Cell where
  | vnone
  | vstr (s : String)
  | vother (s : String)
deriving DecidableEq, Repr

/-- Python `str()` of a cell value. -/
def pyStr : Cell → String
  | .vnone => "None"
  | .vstr s => s
  | .vother s => s

/-- The cleaned form of a stringified cell value: strip/trim, drop
commas and whitespace, drop every non-`[0-9.-]` character. -/
def cleanedNum (s : String) : String := stripNonNum (stripCommaWs (pyStrip s))

/-- Core of `ColorExtractor.to_number` after the `None` test: strip
commas/whitespace, strip non-numeric characters, reject degenerate
strings, parse, and return an `int` when the value is integral. -/
def to_number_str (s : String) : Option PyNum :=
  let clean_val := cleanedNum s
  if clean_val = "" ∨ clean_val = "-" ∨ clean_val = "." then none
  else
    match pyFloat clean_val with
    | none => none
    | some f => some (if f.den = 1 then .int f.num else .float f)

/-- `ColorExtractor.to_number` (main.py lines 68–87). -/
def to_number : Cell → Option PyNum
  | .vnone => none
  | .vstr s => to_number_str s
  | .vother s => to_number_str s

/-- An openpyxl `Color` attribute: its `rgb` string, `none` when absent
(the empty string is also falsy in the source's truthiness test). -/
structure PyColor where
  rgb : Option String
deriving DecidableEq, Repr

/-- An openpyxl `PatternFill`: pattern kind (string value of the
`patternType`, `none` when absent/None) plus foreground and background
colors. -/
structure Fill where
  patternType : Option String
  fgColor : Option PyColor
  bgColor : Option PyColor
deriving DecidableEq, Repr

/-- Outcome of examining one color attribute in `normalize_rgb`:
return `"FFFFFF"` at once (the `"00000000"` sentinel), a contributed
6-character string, or no contribution. -/
inductive ColorStep where
  | retWhite
  | found (c : String)
  | nothing
deriving DecidableEq, Repr

/-- One `fgColor`/`bgColor` block of `normalize_rgb` (main.py lines
112–132): guard for presence and truthiness of `rgb`, uppercase,
short-circuit on `"00000000"`, keep the last 6 of an 8-character
string, keep a 6-character string as is, otherwise contribute
nothing. -/
def examineColor (oc : Option PyColor) : ColorStep :=
  match oc with
  | none => .nothing
  | some col =>
    match col.rgb with
    | none => .nothing
    | some raw =>
      if raw = "" then .nothing
      else
        let color_str := pyToUpper raw
        if color_str = "00000000" then .retWhite
        else if color_str.length = 8 then .found (color_str.drop 2)
        else if color_str.length = 6 then .found color_str
        else .nothing

/-- Final step of `normalize_rgb` (main.py lines 134–138): the excluded
color set `{"00000000", "F2F2F2"}` and the empty fallback both yield
`"FFFFFF"`. -/
def finishColor (color_found : String) : String :=
  if color_found = "00000000" ∨ color_found = "F2F2F2" then "FFFFFF"
  else if color_found = "" then "FFFFFF"
  else color_found

/-- `ColorExtractor.normalize_rgb` (main.py lines 89–138). -/
def normalize_rgb (fill : Option Fill) : String :=
  match fill with
  | none => "FFFFFF"
  | some f =>
    match f.patternType with
    | none => "FFFFFF"
    | some pattern_value =>
      if pattern_value ≠ "solid" then "FFFFFF"
      else
        match examineColor f.fgColor with
        | .retWhite => "FFFFFF"
        | .found c => finishColor c
        | .nothing =>
          match examineColor f.bgColor with
          | .retWhite => "FFFFFF"
          | .found c => finishColor c
          | .nothing => finishColor ""

/-- A sheet's cell-value grid as read by
`pd.read_excel(..., header=None)`: a rectangular, 0-indexed view. -/
structure Grid where
  rows : Nat
  cols : Nat
  cell : Nat → Nat → Cell

/-- `str(raw.iat[r, c]).strip() if raw.iat[r, c] is not None else ""`,
the cell rendering used by the header locators. -/
def cellStr (g : Grid) (r c : Nat) : String :=
  match g.cell r c with
  | .vnone => ""
  | v => pyStrip (pyStr v)

/-- A regex word character (`\w`), for the ASCII range the inputs use. -/
def isWordChar (c : Char) : Bool := c.isAlphanum || c = '_'

/-- Does `s` start with the literal characters `pat`? -/
def startsWithSeq : List Char → List Char → Bool
  | [], _ => true
  | _ :: _, [] => false
  | p :: ps, c :: cs => p = c && startsWithSeq ps cs

/-- After a match of `pat` at the front of `s`, is the following
position a word boundary (end of string or a non-word character)? -/
def boundaryAfter (pat s : List Char) : Bool :=
  match s.drop pat.length with
  | [] => true
  | c :: _ => !isWordChar c

/-- `re.search` of a word-boundary-delimited literal (`\b…\b`): is
there a position where `pat` occurs with a non-word (or absent)
character on both sides?  `prevWord` records whether the previous
character is a word character. -/
def wbSearchAux (pat : List Char) (prevWord : Bool) : List Char → Bool
  | [] => false
  | c :: cs =>
    (!prevWord && startsWithSeq pat (c :: cs) && boundaryAfter pat (c :: cs))
      || wbSearchAux pat (isWordChar c) cs

/-- `re.search(r"\b<pat>\b", s)` for a literal `pat` made of word
characters. -/
def wbSearch (pat : List Char) (s : List Char) : Bool :=
  wbSearchAux pat false s

/-- Plain (boundary-free) substring search, `re.search` of a literal. -/
def subSearch (pat : List Char) : List Char → Bool
  | [] => pat.isEmpty
  | c :: cs => startsWithSeq pat (c :: cs) || subSearch pat cs

/-- Search for `a` followed by `\s*` followed by `b`, where `b` starts
with a digit (so the greedy whitespace skip is exact). -/
def subWsSearch (a b : List Char) : List Char → Bool
  | [] => a.isEmpty && b.isEmpty
  | c :: cs =>
    (startsWithSeq a (c :: cs)
      && startsWithSeq b (((c :: cs).drop a.length).dropWhile isPyWs))
      || subWsSearch a b cs

/-- The `h\s*/\s*w` pattern of the main-matrix fallback: at some
position, a word boundary, `h`, optional whitespace, `/`, optional
whitespace, `w`, word boundary.  The cell text is lowercased first
(`re.IGNORECASE`). -/
def hwMatchAt : List Char → Bool
  | [] => false
  | c :: cs =>
    c = 'h' &&
      (match cs.dropWhile isPyWs with
       | '/' :: r2 =>
         (match r2.dropWhile isPyWs with
          | w :: r3 => w = 'w' && (match r3 with | [] => true | d :: _ => !isWordChar d)
          | [] => false)
       | _ => false)

/-- `re.search(r"\bh\s*/\s*w\b", s, re.IGNORECASE)`. -/
def hwSearchAux (prevWord : Bool) : List Char → Bool
  | [] => false
  | c :: cs => (!prevWord && hwMatchAt (c :: cs)) || hwSearchAux (isWordChar c) cs

def hwSearch (s : String) : Bool := hwSearchAux false (pyToLower s).toList

/-- The decimal digits of `n`. -/
def natDigits (n : Nat) : List Char := (Nat.repr n).toList

/-- Does the (already stripped) column-A cell text match one of the six
thickness header patterns for index `n`
(`find_thickness_matrix_in_column_a`, main.py lines 142–149)?  The
text is lowercased for `re.IGNORECASE`. -/
def thicknessFound (s : String) (n : Nat) : Bool :=
  let l := (pyToLower s).toList
  subSearch ("thk.".toList ++ natDigits n) l
    || wbSearch (natDigits n) l
    || subWsSearch "thickness".toList (natDigits n) l
    || subWsSearch "หนา".toList (natDigits n) l
    || subWsSearch "ชั้น".toList (natDigits n) l
    || subWsSearch "ระดับ".toList (natDigits n) l

/-- `ColorExtractor.find_thickness_matrix_in_column_a` (main.py lines
140–160): first row whose column-A text matches a thickness pattern
for `n`. -/
def find_thickness_matrix_in_column_a (g : Grid) (n : Nat) : Option Nat :=
  (List.range g.rows).find? (fun r =>
    decide (0 < g.cols) && thicknessFound (cellStr g r 0) n)

/-- `ColorExtractor.find_main_matrix` (main.py lines 162–183): first
row whose column-A text matches `\b1\b`, else the first cell (row-major)
whose *string* value matches `h\s*/\s*w`. -/
def find_main_matrix (g : Grid) : Option (Nat × Nat) :=
  match (List.range g.rows).find? (fun r =>
      decide (0 < g.cols) && wbSearch ['1'] (cellStr g r 0).toList) with
  | some r => some (r, 0)
  | none =>
    (List.range g.rows).findSome? (fun r =>
      ((List.range g.cols).find? (fun c =>
          match g.cell r c with
          | .vstr s => hwSearch s
          | _ => false)).map (fun c => (r, c)))

/-- An openpyxl worksheet view: the extraction code reads only
`ws.max_row`, `ws.max_column` and `ws.cell(row, column).fill`, together
with the pandas grid of the same sheet. -/
structure Sheet where
  grid : Grid
  maxRow : Nat
  maxCol : Nat
  fill : Nat → Nat → Option Fill

/-- A color matrix: the Python dict keyed by `(height, width)` (numeric
equality, hence keys are the numeric values). -/
def ColorMap : Type := Rat × Rat → Option String

/-- Python dict assignment `d[(h, w)] = v` (later writes win). -/
def cmInsert (m : ColorMap) (k : Rat × Rat) (v : String) : ColorMap :=
  fun k' => if k' = k then some v else m k'

/-- The empty dict. -/
def cmEmpty : ColorMap := fun _ => none

/-- The nine candidate offsets, in the iteration order of the source
(`row_offset` outer, `col_offset` inner). -/
def candidateOffsets : List (Nat × Nat) :=
  [(1, 1), (1, 2), (1, 3), (2, 1), (2, 2), (2, 3), (3, 1), (3, 2), (3, 3)]

/-- The sample positions `(i_h, i_w)` of the offset test: the first
`min 2 |heights|` heights × first `min 2 |widths|` widths. -/
def samplePairs (heights widths : List PyNum) : List (Nat × Nat) :=
  (List.range (min 2 heights.length)).flatMap (fun ih =>
    (List.range (min 2 widths.length)).map (fun iw => (ih, iw)))

/-- `valid_count` of one candidate offset: walk the sample cells,
incrementing for every in-bounds cell whose normalized color is not
`"FFFFFF"` (out-of-bounds cells are set to `"FFFFFF"` and not
counted). -/
def sampleCount (sh : Sheet) (baseRow baseCol : Nat)
    (widths heights : List PyNum) (ro co : Nat) : Nat :=
  (samplePairs heights widths).foldl (fun acc p =>
    let er := baseRow + ro + p.1
    let ec := baseCol + co + p.2
    if er ≤ sh.maxRow ∧ ec ≤ sh.maxCol then
      (if normalize_rgb (sh.fill er ec) ≠ "FFFFFF" then acc + 1 else acc)
    else acc) 0

/-- The offset-selection loop shared by both matrix readers: fold the
candidates, keeping one only when its count strictly exceeds the best
so far; `max_valid_colors` starts at `0` and `best_offset` at the
caller's default. -/
def pickOffset (count : Nat × Nat → Nat) (dflt : Nat × Nat) : Nat × Nat :=
  (candidateOffsets.foldl
    (fun acc c => if count c > acc.2 then (c, count c) else acc) (dflt, 0)).1

/-- Follows the spec's words (§4.4), for comparison with `pickOffset`:
"Keep the candidate with the strictly highest count; ties keep the
first-seen candidate in iteration order", "Default/fallback offset if
no candidate beats 0". -/
def specPickOffset (count : Nat × Nat → Nat) (dflt : Nat × Nat) : Nat × Nat :=
  let m := (candidateOffsets.map count).foldl Nat.max 0
  if m = 0 then dflt else (candidateOffsets.find? (fun c => count c == m)).getD dflt

/-- The full-matrix read performed after an offset has been selected
(bounded variant used by the auto-offset and thickness readers):
out-of-bounds cells default to `"FFFFFF"`. -/
def readFullMatrix (sh : Sheet) (baseRow baseCol ro co : Nat)
    (widths heights : List PyNum) : ColorMap :=
  heights.enum.foldl (fun m hp =>
    widths.enum.foldl (fun m wp =>
      let er := baseRow + ro + hp.1
      let ec := baseCol + co + wp.1
      let color :=
        if er ≤ sh.maxRow ∧ ec ≤ sh.maxCol then normalize_rgb (sh.fill er ec)
        else "FFFFFF"
      cmInsert m (hp.2.val, wp.2.val) color) m) cmEmpty

/-- Offset chosen by `read_color_matrix_with_auto_offset` (main.py
lines 185–227): candidates anchored at the main header, default
`(2, 2)`. -/
def autoOffset (sh : Sheet) (hr hc : Nat) (widths heights : List PyNum) : Nat × Nat :=
  pickOffset (fun c => sampleCount sh hr hc widths heights c.1 c.2) (2, 2)

/-- `ColorExtractor.read_color_matrix_with_auto_offset` (main.py lines
185–244). -/
def read_color_matrix_with_auto_offset (sh : Sheet) (hr hc : Nat)
    (widths heights : List PyNum) : ColorMap :=
  let off := autoOffset sh hr hc widths heights
  readFullMatrix sh hr hc off.1 off.2 widths heights

/-- Offset chosen by `read_color_matrix_with_thickness_row` (main.py
lines 257–289): candidate rows anchored at the thickness header row,
columns at the main matrix's column, default `(1, 1)`. -/
def thicknessOffset (sh : Sheet) (hcMain hrThick : Nat)
    (widths heights : List PyNum) : Nat × Nat :=
  pickOffset (fun c => sampleCount sh hrThick hcMain widths heights c.1 c.2) (1, 1)

/-- `ColorExtractor.read_color_matrix_with_thickness_row` (main.py
lines 246–314).  `hrMain` is passed but, as in the source, only the
main matrix's *column* is reused. -/
def read_color_matrix_with_thickness_row (sh : Sheet) (_hrMain hcMain hrThick : Nat)
    (widths heights : List PyNum) : ColorMap :=
  let off := thicknessOffset sh hcMain hrThick widths heights
  readFullMatrix sh hrThick hcMain off.1 off.2 widths heights

/-- `ColorExtractor.read_color_matrix` (main.py lines 316–333): the
fixed `(+2, +2)` offset used for the main matrix, no bounds test (an
openpyxl `ws.cell` call cannot fail at positive coordinates, and the
cell-level `try/except` absorbs nothing in this model). -/
def read_color_matrix (sh : Sheet) (hr hc : Nat)
    (widths heights : List PyNum) : ColorMap :=
  heights.enum.foldl (fun m hp =>
    widths.enum.foldl (fun m wp =>
      cmInsert m (hp.2.val, wp.2.val)
        (normalize_rgb (sh.fill (hr + 2 + hp.1) (hc + 2 + wp.1)))) m) cmEmpty

/-- One sheet of a workbook: its name and the (fallible, deterministic)
result of loading its grid and worksheet — `pd.read_excel` may raise,
which is the only per-sheet operation of the pipeline that can. -/
structure SheetData where
  name : String
  read : Except String Sheet

/-- A workbook: its sheets in `xls.sheet_names` order. -/
structure Workbook where
  sheets : List SheetData

/-- `sheet.strip().lower() == "สารบัญ"` — the table-of-contents test. -/
def isTOC (name : String) : Bool := pyToLower (pyStrip name) == "สารบัญ"

/-- The thickness probe of `scan_all_matrices_in_file` (main.py lines
400–407): try indices `t, t+1, …` while found, stop at the first gap;
`fuel` bounds the remaining probes (18 probes cover `2..19`, i.e.
`range(2, 20)`). -/
def probeFrom (g : Grid) : Nat → Nat → List Nat
  | _, 0 => []
  | t, f + 1 =>
    match find_thickness_matrix_in_column_a g t with
    | some _ => t :: probeFrom g (t + 1) f
    | none => []

/-- The inventory `scan_all_matrices_in_file` records for one sheet: a
read failure or a missing main matrix gives `[]`; otherwise `[1]`
extended by the contiguous thickness probe. -/
def invOfSheet (s : SheetData) : List Nat :=
  match s.read with
  | .error _ => []
  | .ok sh =>
    match find_main_matrix sh.grid with
    | none => []
    | some _ => 1 :: probeFrom sh.grid 2 18

/-- One iteration of `scan_all_matrices_in_file`'s sheet loop: skip the
table-of-contents sheet, record the sheet's inventory in the dict, and
raise the running maximum when this sheet has more matrices. -/
def scanStep (acc : Nat × (String → Option (List Nat))) (s : SheetData) :
    Nat × (String → Option (List Nat)) :=
  if isTOC s.name then acc
  else
    let inv := invOfSheet s
    ((if inv.length > acc.1 then inv.length else acc.1),
     fun n => if n = s.name then some inv else acc.2 n)

/-- `ColorExtractor.scan_all_matrices_in_file` (main.py lines 372–432):
the maximal matrix count (starting at 1) and the per-sheet inventory
dict. -/
def scan_all_matrices_in_file (wb : Workbook) :
    Nat × (String → Option (List Nat)) :=
  wb.sheets.foldl scanStep (1, fun _ => none)

/-- The row-major positions visited by the Glass_QTY/Description scan
(`for r in range(raw.shape[0]): for c in range(raw.shape[1] - 1)`). -/
def gdPairs (g : Grid) : List (Nat × Nat) :=
  (List.range g.rows).flatMap (fun r =>
    (List.range (g.cols - 1)).map (fun c => (r, c)))

/-- `str(raw.iat[r, c]).strip().lower()`, the label text of the
Glass_QTY/Description scan. -/
def cellLow (g : Grid) (r c : Nat) : String := pyToLower (pyStrip (pyStr (g.cell r c)))

/-- One step of the Glass_QTY/Description scan (main.py lines 492–508):
state is `(sheet_glass_qty, sheet_description)`; a `None` cell is
skipped, a Glass_QTY label with numeric right neighbor assigns the
quantity, a Description label with non-`None` right neighbor assigns
the description. -/
def gdStep (g : Grid) (st : PyNum × String) (p : Nat × Nat) : PyNum × String :=
  if g.cell p.1 p.2 = .vnone then st
  else if cellLow g p.1 p.2 = "glass_qty" ∨ cellLow g p.1 p.2 = "glass qty" then
    match to_number (g.cell p.1 (p.2 + 1)) with
    | some qty => (qty, st.2)
    | none => st
  else if cellLow g p.1 p.2 = "description" then
    (if g.cell p.1 (p.2 + 1) = .vnone then st
     else (st.1, pyStrip (pyStr (g.cell p.1 (p.2 + 1)))))
  else st

/-- The full Glass_QTY/Description scan: initial state `(1, "")`. -/
def gdScan (g : Grid) : PyNum × String :=
  (gdPairs g).foldl (gdStep g) (.int 1, "")

/-- The widths loop (main.py lines 520–525): read rightward from the
cell after the main header, stopping at the first non-numeric cell;
`fuel` is the number of remaining columns. -/
def collectW (g : Grid) (hr : Nat) : Nat → Nat → List PyNum
  | _, 0 => []
  | c, f + 1 =>
    match to_number (g.cell hr c) with
    | none => []
    | some v => v :: collectW g hr (c + 1) f

/-- The heights loop (main.py lines 527–532). -/
def collectH (g : Grid) (hc : Nat) : Nat → Nat → List PyNum
  | _, 0 => []
  | r, f + 1 =>
    match to_number (g.cell r hc) with
    | none => []
    | some v => v :: collectH g hc (r + 1) f

/-- The resolved widths of a sheet with main header at `(hr, hc)`. -/
def widthsOf (g : Grid) (hr hc : Nat) : List PyNum :=
  collectW g hr (hc + 1) (g.cols - (hc + 1))

/-- The resolved heights of a sheet with main header at `(hr, hc)`. -/
def heightsOf (g : Grid) (hr hc : Nat) : List PyNum :=
  collectH g hc (hr + 1) (g.rows - (hr + 1))

/-- Python `min` over a nonempty list by numeric value (first minimum
wins); the `[]` case is never reached by the pipeline. -/
def pyMin (l : List PyNum) : PyNum :=
  match l with
  | [] => .int 0
  | x :: xs => xs.foldl (fun a v => if v.val < a.val then v else a) x

/-- Python `max` over a nonempty list by numeric value (first maximum
wins). -/
def pyMax (l : List PyNum) : PyNum :=
  match l with
  | [] => .int 0
  | x :: xs => xs.foldl (fun a v => if a.val < v.val then v else a) x

/-- A Type record, without its running `ID` (ids are attached by the
workbook fold). -/
structure TypeCore where
  serie : String
  typeName : String
  description : String
  widthMin : PyNum
  widthMax : PyNum
  heightMin : PyNum
  heightMax : PyNum

/-- A Price record, without its running `ID`: the fixed columns plus
the uniform `1_Color..N_Color` columns as an ordered list of
`(index, color)` pairs. -/
structure PriceCore where
  serie : String
  typeName : String
  width : PyNum
  height : PyNum
  price : PyNum
  glassQty : PyNum
  colors : List (Nat × String)

/-- One iteration of the thickness-matrix loop of `process_file`
(main.py lines 552–562): skip index 1, re-locate the thickness header
and read that matrix when found. -/
def mcStep (sh : Sheet) (hr hc : Nat) (widths heights : List PyNum)
    (acc : Nat → Option ColorMap) (t : Nat) : Nat → Option ColorMap :=
  if t = 1 then acc
  else
    match find_thickness_matrix_in_column_a sh.grid t with
    | some hrThick =>
      fun i =>
        if i = t then
          some (read_color_matrix_with_thickness_row sh hr hc hrThick widths heights)
        else acc i
    | none => acc

/-- The `matrix_colors` dict of one sheet (main.py lines 543–562):
matrix 1 via the fixed-offset reader when inventoried, every other
inventoried index via the thickness reader when its header row is
found again. -/
def matrixColors (sh : Sheet) (hr hc : Nat) (avail : List Nat)
    (widths heights : List PyNum) : Nat → Option ColorMap :=
  let m0 : Nat → Option ColorMap := fun _ => none
  let m1 : Nat → Option ColorMap :=
    if 1 ∈ avail then
      fun i => if i = 1 then some (read_color_matrix sh hr hc widths heights) else m0 i
    else m0
  avail.foldl (mcStep sh hr hc widths heights) m1

/-- The color-column fill rule (main.py lines 599–605):
`matrix_colors[i].get((h, w), "FFFFFF")` when matrix `i` exists,
`"FFFFFF"` otherwise. -/
def colorLookup (mc : Nat → Option ColorMap) (i : Nat) (k : Rat × Rat) : String :=
  match mc i with
  | some m => (m k).getD "FFFFFF"
  | none => "FFFFFF"

/-- The Price records of one sheet (main.py lines 578–609), in emission
order: one per `(height, width)` pair whose main-matrix cell parses as
a number. -/
def priceCores (base sheetName : String) (gq : PyNum) (maxM : Nat)
    (mc : Nat → Option ColorMap) (g : Grid) (hr hc : Nat)
    (widths heights : List PyNum) : List PriceCore :=
  heights.enum.flatMap (fun hp =>
    widths.enum.filterMap (fun wp =>
      match to_number (g.cell (hr + 1 + hp.1) (hc + 1 + wp.1)) with
      | none => none
      | some p =>
        some { serie := base
               typeName := pyStrip sheetName
               width := wp.2
               height := hp.2
               price := p
               glassQty := gq
               colors := (List.range' 1 maxM).map (fun i =>
                 (i, colorLookup mc i (hp.2.val, wp.2.val))) }))

/-- Outcome of the per-sheet body of `process_file`'s loop: a skip
record, an emitted Type record plus Price records, or an uncaught
exception (which aborts the workbook). -/
inductive SheetOutcome where
  | skip (reason : String)
  | done (tr : TypeCore) (prs : List PriceCore)
  | fatal (e : String)

/-- The per-sheet body of `process_file`'s loop (main.py lines
468–612), with `inv` the scanned inventory dict and `maxM` the global
matrix count. -/
def processSheet (base : String) (inv : String → Option (List Nat)) (maxM : Nat)
    (s : SheetData) : SheetOutcome :=
  if isTOC s.name then .skip "ข้าม Sheet สารบัญ"
  else
    let avail := (inv s.name).getD []
    if avail.isEmpty then .skip "ไม่พบ matrix ใดๆ"
    else
      match s.read with
      | .error e => .fatal e
      | .ok sh =>
        let gd := gdScan sh.grid
        match find_main_matrix sh.grid with
        | none => .skip "ไม่พบ main matrix"
        | some (hr, hc) =>
          let widths := widthsOf sh.grid hr hc
          let heights := heightsOf sh.grid hr hc
          if widths.isEmpty ∨ heights.isEmpty then
            .skip "ไม่พบ dimensions (ความกว้าง/ความสูง)"
          else
            let mc := matrixColors sh hr hc avail widths heights
            let tr : TypeCore :=
              { serie := base
                typeName := pyStrip s.name
                description := gd.2
                widthMin := pyMin widths
                widthMax := pyMax widths
                heightMin := pyMin heights
                heightMax := pyMax heights }
            .done tr (priceCores base s.name gd.1 maxM mc sh.grid hr hc widths heights)

/-- Attach consecutive ids starting at `n`. -/
def numberFrom : Nat → List α → List (Nat × α)
  | _, [] => []
  | n, a :: t => (n, a) :: numberFrom (n + 1) t

/-- Accumulator of `process_file`'s loop. -/
structure PState where
  priceRows : List (Nat × PriceCore)
  typeRows : List (Nat × TypeCore)
  priceId : Nat
  typeId : Nat
  processedSheets : Nat
  skippedSheets : List (String × String)

/-- The result summary `process_file` returns on success (the two
output file paths are I/O plumbing outside the model). -/
structure ProcessResult where
  priceRows : List (Nat × PriceCore)
  typeRows : List (Nat × TypeCore)
  totalRecords : Nat
  processedSheets : Nat
  skippedSheets : List (String × String)
  warnings : List String

/-- `process_file`'s loop over the sheets: a `fatal` outcome propagates
as the single `"Processing failed"` error of the enclosing
`try/except`. -/
def processGo (base : String) (inv : String → Option (List Nat)) (maxM : Nat) :
    List SheetData → PState → Except String PState
  | [], st => .ok st
  | s :: rest, st =>
    match processSheet base inv maxM s with
    | .fatal e => .error ("Processing failed: " ++ e)
    | .skip r =>
      processGo base inv maxM rest
        { st with skippedSheets := st.skippedSheets ++ [(s.name, r)] }
    | .done tr prs =>
      processGo base inv maxM rest
        { st with
          typeRows := st.typeRows ++ [(st.typeId, tr)]
          typeId := st.typeId + 1
          priceRows := st.priceRows ++ numberFrom st.priceId prs
          priceId := st.priceId + prs.length
          processedSheets := st.processedSheets + 1 }

/-- `ColorExtractor.process_file` (main.py lines 434–635), from the
point where the workbook is open: scan all sheets, then run the
extraction loop.  `base` is the series name derived from the file
name. -/
def process_file (wb : Workbook) (base : String) : Except String ProcessResult :=
  let scanned := scan_all_matrices_in_file wb
  match processGo base scanned.2 scanned.1 wb.sheets
      { priceRows := [], typeRows := [], priceId := 1, typeId := 1,
        processedSheets := 0, skippedSheets := [] } with
  | .error e => .error e
  | .ok st =>
    .ok { priceRows := st.priceRows
          typeRows := st.typeRows
          totalRecords := st.priceRows.length
          processedSheets := st.processedSheets
          skippedSheets := st.skippedSheets
          warnings := [] }

/-! ## Claim-support definitions

Decompositions of the loops above into named pieces (used to state
the claims), the generic fold helpers, and the concrete example
workbook the witnesses evaluate. -/

/-- The Glass_QTY assignment a cell would make: the numeric value of
its right neighbor when the cell is a Glass_QTY label, nothing
otherwise. -/
def glassVal (g : Grid) (p : Nat × Nat) : Option PyNum :=
  if g.cell p.1 p.2 = .vnone then none
  else if cellLow g p.1 p.2 = "glass_qty" ∨ cellLow g p.1 p.2 = "glass qty" then
    to_number (g.cell p.1 (p.2 + 1))
  else none

/-- The Description assignment a cell would make. -/
def descVal (g : Grid) (p : Nat × Nat) : Option String :=
  if g.cell p.1 p.2 = .vnone then none
  else if cellLow g p.1 p.2 = "description" then
    (if g.cell p.1 (p.2 + 1) = .vnone then none
     else some (pyStrip (pyStr (g.cell p.1 (p.2 + 1)))))
  else none

/-- The grid refuting C2's "first match wins": two `glass_qty` labels
in row-major order with numeric neighbors `2` then `3`. -/
def gdCexGrid : Grid where
  rows := 2
  cols := 2
  cell := fun r c =>
    match r, c with
    | 0, 0 => .vstr "glass_qty"
    | 0, 1 => .vstr "2"
    | 1, 0 => .vstr "glass_qty"
    | 1, 1 => .vstr "3"
    | _, _ => .vnone

/-- Running maximum of `f` over `l` starting from `m`. -/
def foldMax (f : α → Nat) (l : List α) (m : Nat) : Nat :=
  l.foldl (fun a c => Nat.max a (f c)) m

/-- The in-bounds-and-colored test a sample cell must pass to be
counted. -/
def sampleHit (sh : Sheet) (baseRow baseCol ro co : Nat) (p : Nat × Nat) : Bool :=
  decide ((baseRow + ro + p.1 ≤ sh.maxRow ∧ baseCol + co + p.2 ≤ sh.maxCol)
    ∧ normalize_rgb (sh.fill (baseRow + ro + p.1) (baseCol + co + p.2)) ≠ "FFFFFF")

/-- A small sheet: main header `"1"` in column A row 0, widths
`[100, 200]`, heights `[50, 60]`, numeric prices in the implied grid,
no fills. -/
def exGridA : Grid where
  rows := 3
  cols := 4
  cell := fun r c =>
    match r, c with
    | 0, 0 => .vstr "1"
    | 0, 1 => .vstr "100"
    | 0, 2 => .vstr "200"
    | 1, 0 => .vstr "50"
    | 2, 0 => .vstr "60"
    | 1, 1 => .vstr "10"
    | 1, 2 => .vstr "20"
    | 2, 1 => .vstr "30"
    | 2, 2 => .vstr "40"
    | _, _ => .vnone

def exSheetA : Sheet where
  grid := exGridA
  maxRow := 10
  maxCol := 10
  fill := fun _ _ => none

/-- A workbook with one readable sheet and one whose load raises. -/
def exWorkbook : Workbook where
  sheets := [⟨"A", .ok exSheetA⟩, ⟨"B", .error "read failure"⟩]

def sheetNames (wb : Workbook) : List String := wb.sheets.map SheetData.name

/-- The skip record a sheet contributes, if any. -/
def outcomeSkip (base : String) (inv : String → Option (List Nat)) (maxM : Nat)
    (s : SheetData) : Option (String × String) :=
  match processSheet base inv maxM s with
  | .skip r => some (s.name, r)
  | _ => none

/-- The Type record and Price records a sheet contributes, if any. -/
def outcomeCores (base : String) (inv : String → Option (List Nat)) (maxM : Nat)
    (s : SheetData) : Option (TypeCore × List PriceCore) :=
  match processSheet base inv maxM s with
  | .done tr prs => some (tr, prs)
  | _ => none

def outcomeIsDone : SheetOutcome → Bool
  | .done _ _ => true
  | _ => false

/-- The three skip conditions of C9: reserved contents name, empty
inventory, or a located main header whose resolved dimensions are
empty. -/
def sheetSkipCond (s : SheetData) : Prop :=
  isTOC s.name = true ∨ invOfSheet s = []
  ∨ ∃ sh hr hc, s.read = .ok sh ∧ find_main_matrix sh.grid = some (hr, hc)
      ∧ (widthsOf sh.grid hr hc = [] ∨ heightsOf sh.grid hr hc = [])

/-! ## Claim C6 — the `to_number` contract -/

/-- C6: `to_number` stringifies its input, strips commas and
whitespace, strips every character that is not a digit, `.` or `-`,
returns `none` for an empty/`"-"`/`"."` result, returns `none` when the
parse fails (on the cleaned alphabet `float()` can never yield `NaN`,
so the `math.isnan` branch is unreachable and parse failure is the only
`none` source past the degenerate strings), otherwise returns an
integer when the parsed value has no fractional part and the float
otherwise, and never raises (it is a total function); in particular
`" 1,234 "` yields `1234`, `"1,234.50"` yields `1234.5` (= 2469/2),
and `""`, `"-"`, `"."`, `"abc"` yield `none`. -/
theorem to_number_contract :
    to_number (.vstr " 1,234 ") = some (.int 1234)
    ∧ to_number (.vstr "1,234.50") = some (.float (mkRat 2469 2))
    ∧ to_number (.vstr "") = none
    ∧ to_number (.vstr "-") = none
    ∧ to_number (.vstr ".") = none
    ∧ to_number (.vstr "abc") = none
    ∧ (∀ s : String, cleanedNum s = "" ∨ cleanedNum s = "-" ∨ cleanedNum s = "." →
        to_number (.vstr s) = none)
    ∧ (∀ s : String, pyFloat (cleanedNum s) = none → to_number (.vstr s) = none)
    ∧ (∀ s : String, ∀ q : Rat, pyFloat (cleanedNum s) = some q →
        ¬(cleanedNum s = "" ∨ cleanedNum s = "-" ∨ cleanedNum s = ".") →
        to_number (.vstr s) = some (if q.den = 1 then .int q.num else .float q)) := by
  refine ⟨by decide, by decide, by decide, by decide, by decide, by decide, ?_, ?_, ?_⟩
  · intro s h
    simp only [to_number, to_number_str, if_pos h]
  · intro s h
    simp only [to_number, to_number_str]
    split
    · rfl
    · rw [h]
  · intro s q h hne
    simp only [to_number, to_number_str]
    split
    · exact absurd (by assumption) hne
    · rw [h]

/-- Witness for C6's generic clauses: `"1-2"` survives cleaning but
`float()` rejects it, so the result is `none`. -/
theorem to_number_contract_witness : to_number (.vstr "1-2") = none :=
  to_number_contract.2.2.2.2.2.2.2.1 "1-2" (by decide)

/-! ## Claim C7 — non-solid fills normalize to white -/

/-- C7: `normalize_rgb` returns `"FFFFFF"` when there is no fill at
all, when the fill has no pattern kind, or when the pattern kind is
anything other than `'solid'` — whatever the foreground or background
colors hold. -/
theorem normalize_rgb_nonsolid :
    normalize_rgb none = "FFFFFF"
    ∧ (∀ fl : Fill, fl.patternType = none → normalize_rgb (some fl) = "FFFFFF")
    ∧ (∀ fl : Fill, ∀ pv : String, fl.patternType = some pv → pv ≠ "solid" →
        normalize_rgb (some fl) = "FFFFFF") := by
  refine ⟨rfl, ?_, ?_⟩
  · intro fl h
    simp only [normalize_rgb, h]
  · intro fl pv h hpv
    simp only [normalize_rgb, h, if_pos hpv]

/-- Witness for C7: a `gray125`-patterned fill with vivid foreground
and background colors still normalizes to white. -/
theorem normalize_rgb_nonsolid_witness :
    normalize_rgb (some ⟨some "gray125", some ⟨some "FFFF0000"⟩,
      some ⟨some "FF00FF00"⟩⟩) = "FFFFFF" :=
  normalize_rgb_nonsolid.2.2 _ "gray125" rfl (by decide)

/-! ## Claim C8 — solid-fill color resolution order -/

/-- C8: for a solid fill the foreground is examined first and the
background only when the foreground yielded nothing; a raw foreground
equal to `"00000000"` short-circuits to `"FFFFFF"` without falling
through to the background; an 8-character color contributes its last 6
characters and a 6-character color is used as is (then filtered through
the excluded set by `finishColor`); any other length contributes
nothing; and a resolved color in `{"00000000", "F2F2F2"}` — or no
resolved color at all — yields `"FFFFFF"`. -/
theorem normalize_rgb_solid_resolution :
    ∀ fg bg : Option PyColor,
    (∀ s : String, fg.bind PyColor.rgb = some s → pyToUpper s = "00000000" →
        normalize_rgb (some ⟨some "solid", fg, bg⟩) = "FFFFFF")
    ∧ (∀ s : String, fg.bind PyColor.rgb = some s → s ≠ "" →
        pyToUpper s ≠ "00000000" → (pyToUpper s).length = 8 →
        normalize_rgb (some ⟨some "solid", fg, bg⟩) =
          finishColor ((pyToUpper s).drop 2))
    ∧ (∀ s : String, fg.bind PyColor.rgb = some s → s ≠ "" →
        (pyToUpper s).length = 6 →
        normalize_rgb (some ⟨some "solid", fg, bg⟩) = finishColor (pyToUpper s))
    ∧ (∀ s : String, fg.bind PyColor.rgb = some s → s ≠ "" →
        pyToUpper s ≠ "00000000" → (pyToUpper s).length ≠ 8 →
        (pyToUpper s).length ≠ 6 → examineColor fg = .nothing)
    ∧ (examineColor fg = .nothing →
        normalize_rgb (some ⟨some "solid", fg, bg⟩) =
          normalize_rgb (some ⟨some "solid", none, bg⟩))
    ∧ (examineColor fg = .nothing → examineColor bg = .nothing →
        normalize_rgb (some ⟨some "solid", fg, bg⟩) = "FFFFFF")
    ∧ (∀ c : String, c = "00000000" ∨ c = "F2F2F2" → finishColor c = "FFFFFF") := by
  intro fg bg
  have hsolid : ∀ fg' bg' : Option PyColor,
      normalize_rgb (some ⟨some "solid", fg', bg'⟩) =
        (match examineColor fg' with
         | .retWhite => "FFFFFF"
         | .found c => finishColor c
         | .nothing =>
           match examineColor bg' with
           | .retWhite => "FFFFFF"
           | .found c => finishColor c
           | .nothing => finishColor "") := by
    intro fg' bg'
    simp only [normalize_rgb]
    rw [if_neg (by decide : ¬("solid" : String) ≠ "solid")]
  have hex : ∀ s : String, fg.bind PyColor.rgb = some s → s ≠ "" →
      examineColor fg =
        (if pyToUpper s = "00000000" then ColorStep.retWhite
         else if (pyToUpper s).length = 8 then .found ((pyToUpper s).drop 2)
         else if (pyToUpper s).length = 6 then .found (pyToUpper s)
         else .nothing) := by
    intro s hs hne
    match fg, hs with
    | some col, hs =>
      have hs' : col.rgb = some s := hs
      simp only [examineColor, hs', if_neg hne]
  refine ⟨?_, ?_, ?_, ?_, ?_, ?_, ?_⟩
  · intro s hs hsent
    by_cases hne : s = ""
    · subst hne; exact absurd hsent (by decide)
    · simp only [hsolid, hex s hs hne, if_pos hsent]
  · intro s hs hne hsent h8
    simp only [hsolid, hex s hs hne, if_neg hsent, if_pos h8]
  · intro s hs hne h6
    have hsent : pyToUpper s ≠ "00000000" := by
      intro h
      rw [h] at h6
      exact absurd h6 (by decide)
    have h8 : (pyToUpper s).length ≠ 8 := by rw [h6]; decide
    simp only [hsolid, hex s hs hne, if_neg hsent, if_neg h8, if_pos h6]
  · intro s hs hne hsent h8 h6
    simp only [hex s hs hne, if_neg hsent, if_neg h8, if_neg h6]
  · intro hfg
    rw [hsolid, hsolid, hfg]
    rfl
  · intro hfg hbg
    rw [hsolid, hfg, hbg]
    decide
  · intro c hc
    simp only [finishColor, if_pos hc]

/-- Witness for C8: a solid fill with 8-character lowercase foreground
`"ffab1234"` resolves to its last six uppercased characters,
regardless of a vivid background. -/
theorem normalize_rgb_solid_resolution_witness :
    normalize_rgb (some ⟨some "solid", some ⟨some "ffab1234"⟩,
      some ⟨some "FF00FF00"⟩⟩) = "AB1234" :=
  ((normalize_rgb_solid_resolution (some ⟨some "ffab1234"⟩)
    (some ⟨some "FF00FF00"⟩)).2.1 "ffab1234" rfl (by decide) (by decide)
      (by decide)).trans (by decide)

/-! ## Claim C2 — the Glass_QTY / Description scan -/

lemma gdStep_eq (g : Grid) (st : PyNum × String) (p : Nat × Nat) :
    gdStep g st p = ((glassVal g p).getD st.1, (descVal g p).getD st.2) := by
  unfold gdStep glassVal descVal
  by_cases h0 : g.cell p.1 p.2 = .vnone
  · rw [if_pos h0, if_pos h0, if_pos h0]; rfl
  · rw [if_neg h0, if_neg h0, if_neg h0]
    by_cases h1 : cellLow g p.1 p.2 = "glass_qty" ∨ cellLow g p.1 p.2 = "glass qty"
    · rw [if_pos h1, if_pos h1]
      have h2 : ¬cellLow g p.1 p.2 = "description" := by
        rcases h1 with h | h <;> rw [h] <;> decide
      rw [if_neg h2]
      cases to_number (g.cell p.1 (p.2 + 1)) <;> rfl
    · rw [if_neg h1, if_neg h1]
      by_cases h2 : cellLow g p.1 p.2 = "description"
      · rw [if_pos h2, if_pos h2]
        by_cases h3 : g.cell p.1 (p.2 + 1) = .vnone
        · rw [if_pos h3, if_pos h3]; rfl
        · rw [if_neg h3, if_neg h3]; rfl
      · rw [if_neg h2, if_neg h2]; rfl

lemma getLastD_cons (v : β) (l : List β) (b : β) :
    ((v :: l).getLast?).getD b = (l.getLast?).getD v := by
  induction l generalizing v b with
  | nil => rfl
  | cons x xs ih =>
    rw [List.getLast?_cons_cons, ih x b, ih x v]

lemma gd_foldl (g : Grid) (l : List (Nat × Nat)) (st : PyNum × String) :
    l.foldl (gdStep g) st =
      (((l.filterMap (glassVal g)).getLast?).getD st.1,
       ((l.filterMap (descVal g)).getLast?).getD st.2) := by
  induction l generalizing st with
  | nil => rfl
  | cons p t ih =>
    rw [List.foldl_cons, ih, gdStep_eq, List.filterMap_cons, List.filterMap_cons]
    cases hg : glassVal g p <;> cases hd : descVal g p <;>
      simp only [Option.getD_some, Option.getD_none, getLastD_cons]

/-- C2 counterexample: on a grid whose row-major scan meets a
`glass_qty` label with numeric neighbor `2` first and another with
neighbor `3` later, the sheet's glassQty is `3`, not the first match's
`2` — the scan loop never stops at the first match, so later matches
overwrite earlier ones. -/
theorem gd_first_match_refuted :
    (gdScan gdCexGrid).1 = PyNum.int 3 ∧ (gdScan gdCexGrid).1 ≠ PyNum.int 2 := by
  decide

/-- C2 (amended): in the row-major full-grid scan (over every column
but the last), the **last** cell whose trimmed lowercase text equals
`"glass_qty"`/`"glass qty"` *and* whose right neighbor parses as a
number determines the sheet's glassQty (default `1` when there is no
such cell), and the last cell equal to `"description"` with a
non-`None` right neighbor determines the description (default `""`):
later matches overwrite earlier ones. -/
theorem gd_last_match_wins (g : Grid) :
    (gdScan g).1 = (((gdPairs g).filterMap (glassVal g)).getLast?).getD (.int 1)
    ∧ (gdScan g).2 = (((gdPairs g).filterMap (descVal g)).getLast?).getD "" := by
  rw [gdScan, gd_foldl]
  exact ⟨rfl, rfl⟩

/-! ## Claim C3 — the offset-inference heuristic -/

lemma le_foldMax (f : α → Nat) : ∀ (l : List α) (m : Nat), m ≤ foldMax f l m := by
  intro l
  induction l with
  | nil => intro m; exact le_refl m
  | cons c t ih =>
    intro m
    calc m ≤ Nat.max m (f c) := Nat.le_max_left _ _
      _ ≤ foldMax f t (Nat.max m (f c)) := ih _
      _ = foldMax f (c :: t) m := rfl

lemma foldMax_attain (f : α → Nat) : ∀ (l : List α) (m : Nat),
    foldMax f l m = m ∨ ∃ x ∈ l, f x = foldMax f l m := by
  intro l
  induction l with
  | nil => intro m; exact Or.inl rfl
  | cons c t ih =>
    intro m
    have hstep : foldMax f (c :: t) m = foldMax f t (Nat.max m (f c)) := rfl
    rcases ih (Nat.max m (f c)) with h | ⟨x, hx, hfx⟩
    · rcases Nat.le_total m (f c) with hle | hle
      · refine Or.inr ⟨c, List.mem_cons_self c t, ?_⟩
        rw [hstep, h]
        exact (Nat.max_eq_right hle).symm
      · refine Or.inl ?_
        rw [hstep, h]
        exact Nat.max_eq_left hle
    · refine Or.inr ⟨x, List.mem_cons_of_mem c hx, ?_⟩
      rw [hstep]
      exact hfx

lemma pickAux (f : α → Nat) : ∀ (l : List α) (b : α) (m : Nat),
    l.foldl (fun acc c => if f c > acc.2 then (c, f c) else acc) (b, m) =
      ((if foldMax f l m ≤ m then b
        else (l.find? (fun c => f c == foldMax f l m)).getD b),
       foldMax f l m) := by
  intro l
  induction l with
  | nil =>
    intro b m
    simp [foldMax]
  | cons c t ih =>
    intro b m
    have hstep : foldMax f (c :: t) m = foldMax f t (Nat.max m (f c)) := rfl
    rw [List.foldl_cons]
    by_cases hc : f c > m
    · rw [if_pos hc, ih c (f c)]
      have hmax : Nat.max m (f c) = f c := Nat.max_eq_right (Nat.le_of_lt hc)
      have hM : foldMax f (c :: t) m = foldMax f t (f c) := by rw [hstep, hmax]
      have hfcM : f c ≤ foldMax f t (f c) := le_foldMax f t (f c)
      have hMm : ¬foldMax f (c :: t) m ≤ m := by
        rw [hM]; omega
      rw [hM]
      rcases Nat.eq_or_lt_of_le hfcM with heq | hlt
      · rw [if_pos (le_of_eq heq.symm), if_neg (by omega : ¬foldMax f t (f c) ≤ m)]
        rw [List.find?_cons_of_pos _ (by simp [← heq])]
        rfl
      · rw [if_neg (by omega : ¬foldMax f t (f c) ≤ f c),
          if_neg (by omega : ¬foldMax f t (f c) ≤ m)]
        rw [List.find?_cons_of_neg _ (by simp; omega)]
        rcases foldMax_attain f t (f c) with h | ⟨x, hx, hfx⟩
        · omega
        · obtain ⟨y, hy⟩ :
              ∃ y, t.find? (fun z => f z == foldMax f t (f c)) = some y := by
            rw [← Option.isSome_iff_exists, List.find?_isSome]
            exact ⟨x, hx, by simp [hfx]⟩
          rw [hy]
          rfl
    · rw [if_neg hc, ih b m]
      have hmax : Nat.max m (f c) = m := Nat.max_eq_left (Nat.le_of_not_lt hc)
      have hM : foldMax f (c :: t) m = foldMax f t m := by rw [hstep, hmax]
      rw [hM]
      by_cases hle : foldMax f t m ≤ m
      · rw [if_pos hle, if_pos hle]
      · rw [if_neg hle, if_neg hle]
        rw [List.find?_cons_of_neg _ (by simp; omega)]

lemma foldl_count (p : α → Bool) : ∀ (l : List α) (n : Nat),
    l.foldl (fun acc a => if p a then acc + 1 else acc) n = n + l.countP p := by
  intro l
  induction l with
  | nil =>
    intro n
    rw [List.foldl_nil, List.countP_nil]
    rfl
  | cons a t ih =>
    intro n
    rw [List.foldl_cons, ih, List.countP_cons]
    by_cases h : p a
    · simp [h]
      omega
    · simp [h]

lemma foldl_congr_fun (f g : β → α → β) (l : List α) (b : β)
    (h : ∀ b a, f b a = g b a) : l.foldl f b = l.foldl g b := by
  induction l generalizing b with
  | nil => rfl
  | cons a t ih => rw [List.foldl_cons, List.foldl_cons, h, ih]

lemma sampleCount_countP (sh : Sheet) (baseRow baseCol : Nat)
    (widths heights : List PyNum) (ro co : Nat) :
    sampleCount sh baseRow baseCol widths heights ro co =
      (samplePairs heights widths).countP (sampleHit sh baseRow baseCol ro co) := by
  have hfun : ∀ (b : Nat) (p : Nat × Nat),
      (if baseRow + ro + p.1 ≤ sh.maxRow ∧ baseCol + co + p.2 ≤ sh.maxCol then
        (if normalize_rgb (sh.fill (baseRow + ro + p.1) (baseCol + co + p.2)) ≠ "FFFFFF"
         then b + 1 else b)
       else b) =
      (if sampleHit sh baseRow baseCol ro co p then b + 1 else b) := by
    intro b p
    unfold sampleHit
    by_cases h1 : baseRow + ro + p.1 ≤ sh.maxRow ∧ baseCol + co + p.2 ≤ sh.maxCol
    · by_cases h2 :
        normalize_rgb (sh.fill (baseRow + ro + p.1) (baseCol + co + p.2)) ≠ "FFFFFF"
      · rw [if_pos h1, if_pos h2, if_pos (decide_eq_true (And.intro h1 h2))]
      · rw [if_pos h1, if_neg h2,
          if_neg (fun hc => h2 (of_decide_eq_true hc).2)]
    · rw [if_neg h1, if_neg (fun hc => h1 (of_decide_eq_true hc).1)]
  unfold sampleCount
  rw [foldl_congr_fun _
    (fun acc p => if sampleHit sh baseRow baseCol ro co p then acc + 1 else acc)
    _ 0 hfun, foldl_count, Nat.zero_add]

/-- C3: the offset inference tries exactly the 9 candidates
`{1,2,3} × {1,2,3}` in `rowOffset`-outer `colOffset`-inner order,
scores each by the number of sampled cells (first `min 2` heights ×
first `min 2` widths) that are in bounds and carry a non-`"FFFFFF"`
normalized color, keeps a candidate only on a strictly higher score
(so ties keep the first-seen candidate), and falls back to `(1, 1)`
for thickness matrices and `(2, 2)` for the auto-offset variant when
no candidate scores above `0`: the selection loop equals the
spec-side "first candidate attaining the maximum, default when the
maximum is 0" — and the score is the stated cell count. -/
theorem offset_inference_spec :
    (∀ (count : Nat × Nat → Nat) (dflt : Nat × Nat),
        pickOffset count dflt = specPickOffset count dflt)
    ∧ (∀ (sh : Sheet) (hcMain hrThick : Nat) (widths heights : List PyNum),
        thicknessOffset sh hcMain hrThick widths heights =
          specPickOffset
            (fun c => sampleCount sh hrThick hcMain widths heights c.1 c.2) (1, 1))
    ∧ (∀ (sh : Sheet) (hr hc : Nat) (widths heights : List PyNum),
        autoOffset sh hr hc widths heights =
          specPickOffset
            (fun c => sampleCount sh hr hc widths heights c.1 c.2) (2, 2))
    ∧ (∀ (sh : Sheet) (baseRow baseCol : Nat) (widths heights : List PyNum)
        (ro co : Nat),
        sampleCount sh baseRow baseCol widths heights ro co =
          (samplePairs heights widths).countP (sampleHit sh baseRow baseCol ro co)) := by
  have hpick : ∀ (count : Nat × Nat → Nat) (dflt : Nat × Nat),
      pickOffset count dflt = specPickOffset count dflt := by
    intro count dflt
    unfold pickOffset specPickOffset
    rw [pickAux]
    have hmap : (candidateOffsets.map count).foldl Nat.max 0 =
        foldMax count candidateOffsets 0 := by
      rw [foldMax, List.foldl_map]
    rw [hmap]
    by_cases h : foldMax count candidateOffsets 0 = 0
    · rw [if_pos h, if_pos (le_of_eq h)]
    · rw [if_neg h, if_neg (fun hle => h (Nat.le_zero.mp hle))]
  exact ⟨hpick, fun sh hcMain hrThick widths heights => hpick _ _,
    fun sh hr hc widths heights => hpick _ _, sampleCount_countP⟩

/-! ## Claim C10 — price lookups stay inside the grid -/

lemma collectW_length_le (g : Grid) (hr : Nat) :
    ∀ (c fuel : Nat), (collectW g hr c fuel).length ≤ fuel := by
  intro c fuel
  induction fuel generalizing c with
  | zero => exact Nat.le_refl 0
  | succ f ih =>
    unfold collectW
    cases to_number (g.cell hr c) with
    | none => exact Nat.zero_le _
    | some v => simpa using ih (c + 1)

lemma collectH_length_le (g : Grid) (hc : Nat) :
    ∀ (r fuel : Nat), (collectH g hc r fuel).length ≤ fuel := by
  intro r fuel
  induction fuel generalizing r with
  | zero => exact Nat.le_refl 0
  | succ f ih =>
    unfold collectH
    cases to_number (g.cell r hc) with
    | none => exact Nat.zero_le _
    | some v => simpa using ih (r + 1)

/-- C10: every price lookup of the emission loop — grid position
`(hr + 1 + i_h, hc + 1 + i_w)` for `i_h < |heights|`, `i_w < |widths|`
— is within the grid's bounds, because the dimension loops walk only
in-grid cells rightward/downward from the main header and stop at the
first non-numeric one. -/
theorem price_loop_in_bounds (g : Grid) (hr hc iH iW : Nat)
    (hh : iH < (heightsOf g hr hc).length) (hw : iW < (widthsOf g hr hc).length) :
    hr + 1 + iH < g.rows ∧ hc + 1 + iW < g.cols := by
  have h1 := collectH_length_le g hc (hr + 1) (g.rows - (hr + 1))
  have h2 := collectW_length_le g hr (hc + 1) (g.cols - (hc + 1))
  unfold heightsOf at hh
  unfold widthsOf at hw
  omega

/-- Witness for C10 at the example sheet: both index bounds hold and
the looked-up position is in range. -/
theorem price_loop_in_bounds_witness :
    (1 < (heightsOf exGridA 0 0).length ∧ 1 < (widthsOf exGridA 0 0).length)
    ∧ (0 + 1 + 1 < exGridA.rows ∧ 0 + 1 + 1 < exGridA.cols) :=
  ⟨⟨by decide, by decide⟩, price_loop_in_bounds exGridA 0 0 1 1 (by decide) (by decide)⟩

/-! ## Claim C4 — inventories are contiguous from 1 -/

lemma probeFrom_range (g : Grid) : ∀ (fuel t : Nat),
    ∃ k ≤ fuel, probeFrom g t fuel = List.range' t k := by
  intro fuel
  induction fuel with
  | zero => intro t; exact ⟨0, Nat.le_refl 0, rfl⟩
  | succ f ih =>
    intro t
    unfold probeFrom
    cases find_thickness_matrix_in_column_a g t with
    | none => exact ⟨0, Nat.zero_le _, rfl⟩
    | some r =>
      obtain ⟨k, hk, hp⟩ := ih (t + 1)
      exact ⟨k + 1, by omega, by rw [hp, List.range'_succ]⟩

lemma invOfSheet_shape (s : SheetData) :
    invOfSheet s = [] ∨
      ∃ k, 1 ≤ k ∧ k ≤ 19 ∧ invOfSheet s = List.range' 1 k := by
  obtain ⟨nm, rd⟩ := s
  cases rd with
  | error e => exact Or.inl rfl
  | ok sh =>
    cases hf : find_main_matrix sh.grid with
    | none =>
      refine Or.inl ?_
      unfold invOfSheet
      simp only [hf]
    | some p =>
      obtain ⟨k, hk, hp⟩ := probeFrom_range sh.grid 18 2
      refine Or.inr ⟨k + 1, by omega, by omega, ?_⟩
      unfold invOfSheet
      simp only [hf, hp, List.range'_succ]

lemma foldl_preserve {σ : Type} (step : σ → SheetData → σ) (Q : σ → Prop)
    (hstep : ∀ acc s, Q acc → Q (step acc s)) :
    ∀ (l : List SheetData) (acc : σ), Q acc → Q (l.foldl step acc) := by
  intro l
  induction l with
  | nil => intro acc h; exact h
  | cons s t ih => intro acc h; exact ih (step acc s) (hstep acc s h)

/-- C4: every inventory value held by the workbook scan's dict is
either empty (main matrix not found, or the sheet threw during
scanning) or exactly `[1, 2, …, k]` for some `1 ≤ k ≤ 19` (the probe
tries indices 2 through 19 in order and stops at the first gap) — in
particular it never contains an index `j > 1` without containing every
index `2 ≤ i < j`. -/
theorem scan_inventory_contiguous (wb : Workbook) (n : String) (l : List Nat)
    (hl : (scan_all_matrices_in_file wb).2 n = some l) :
    (l = [] ∨ ∃ k, 1 ≤ k ∧ k ≤ 19 ∧ l = List.range' 1 k)
    ∧ (∀ j ∈ l, ∀ i, 2 ≤ i → i < j → i ∈ l) := by
  have hshape : ∀ n' l', (scan_all_matrices_in_file wb).2 n' = some l' →
      l' = [] ∨ ∃ k, 1 ≤ k ∧ k ≤ 19 ∧ l' = List.range' 1 k := by
    have := foldl_preserve scanStep
      (fun acc => ∀ n' l', acc.2 n' = some l' →
        l' = [] ∨ ∃ k, 1 ≤ k ∧ k ≤ 19 ∧ l' = List.range' 1 k)
      ?_ wb.sheets (1, fun _ => none) ?_
    · exact this
    · intro acc s hacc n' l' h
      unfold scanStep at h
      by_cases htoc : isTOC s.name = true
      · rw [if_pos htoc] at h
        exact hacc n' l' h
      · rw [if_neg htoc] at h
        simp only at h
        by_cases hn : n' = s.name
        · rw [if_pos hn] at h
          cases h
          exact invOfSheet_shape s
        · rw [if_neg hn] at h
          exact hacc n' l' h
    · intro n' l' h
      exact absurd h (by simp)
  have hsh := hshape n l hl
  refine ⟨hsh, ?_⟩
  intro j hj i h2 hij
  rcases hsh with h | ⟨k, hk1, hk19, hk⟩
  · rw [h] at hj; exact absurd hj (List.not_mem_nil j)
  · rw [hk] at hj ⊢
    rw [List.mem_range'_1] at hj ⊢
    omega

/-- Witness for C4: in the example workbook, sheet `"A"`'s recorded
inventory is `[1]`, which satisfies the contiguity property. -/
theorem scan_inventory_contiguous_witness :
    (scan_all_matrices_in_file exWorkbook).2 "A" = some [1]
    ∧ (([1] : List Nat) = [] ∨ ∃ k, 1 ≤ k ∧ k ≤ 19 ∧ [1] = List.range' 1 k)
    ∧ (∀ j ∈ [1], ∀ i, 2 ≤ i → i < j → i ∈ [1]) := by
  have h : (scan_all_matrices_in_file exWorkbook).2 "A" = some [1] := by decide
  exact ⟨h, scan_inventory_contiguous exWorkbook "A" [1] h⟩

/-! ## Shared infrastructure for C1, C5 and C9: the scan dict under
distinct sheet names, and the per-sheet outcome characterization.
Excel workbooks cannot contain two sheets of the same name, so the
`Nodup` hypothesis below is the standing well-formedness assumption of
any real input. -/

lemma scanStep_dict_other (acc : Nat × (String → Option (List Nat)))
    (s : SheetData) (n : String) (h : n ≠ s.name) :
    (scanStep acc s).2 n = acc.2 n := by
  unfold scanStep
  by_cases htoc : isTOC s.name = true
  · rw [if_pos htoc]
  · rw [if_neg htoc]
    simp only
    rw [if_neg h]

lemma scan_foldl_dict_skip : ∀ (l : List SheetData)
    (acc : Nat × (String → Option (List Nat))) (n : String),
    (∀ s ∈ l, n ≠ s.name) → ((l.foldl scanStep acc).2) n = acc.2 n := by
  intro l
  induction l with
  | nil => intro acc n _; rfl
  | cons s t ih =>
    intro acc n h
    rw [List.foldl_cons, ih _ n (fun s' hs' => h s' (List.mem_cons_of_mem s hs')),
      scanStep_dict_other acc s n (h s (List.mem_cons_self s t))]

lemma scan_dict_lookup_aux : ∀ (l : List SheetData)
    (acc : Nat × (String → Option (List Nat))) (s : SheetData),
    s ∈ l → ¬isTOC s.name = true → (l.map SheetData.name).Nodup →
    ((l.foldl scanStep acc).2) s.name = some (invOfSheet s) := by
  intro l
  induction l with
  | nil => intro acc s hs; exact absurd hs (List.not_mem_nil s)
  | cons x t ih =>
    intro acc s hs htoc hnd
    rw [List.map_cons, List.nodup_cons] at hnd
    rcases List.mem_cons.mp hs with rfl | hst
    · rw [List.foldl_cons,
        scan_foldl_dict_skip t _ s.name
          (fun s' hs' heq => hnd.1 (by rw [heq]; exact List.mem_map_of_mem _ hs'))]
      unfold scanStep
      rw [if_neg htoc]
      simp
    · rw [List.foldl_cons]
      exact ih _ s hst htoc hnd.2

/-- Inventory lookup during extraction: with distinct sheet names, a
non-contents sheet's dict entry is exactly its own scan inventory. -/
lemma scan_dict_lookup (wb : Workbook) (s : SheetData) (hs : s ∈ wb.sheets)
    (htoc : ¬isTOC s.name = true) (hnd : (sheetNames wb).Nodup) :
    (scan_all_matrices_in_file wb).2 s.name = some (invOfSheet s) :=
  scan_dict_lookup_aux wb.sheets _ s hs htoc hnd

lemma invOfSheet_ok_ne_nil {nm : String} {sh : Sheet}
    (h : invOfSheet ⟨nm, .ok sh⟩ ≠ []) :
    ∃ hr hc, find_main_matrix sh.grid = some (hr, hc) := by
  cases hf : find_main_matrix sh.grid with
  | none =>
    exfalso
    apply h
    unfold invOfSheet
    simp only [hf]
  | some p =>
    obtain ⟨hr, hc⟩ := p
    exact ⟨hr, hc, rfl⟩

/-- Full case analysis of the per-sheet body of `process_file`'s loop,
under the (determinism) fact that the inventory dict returns the
sheet's own inventory. -/
lemma processSheet_spec (base : String) (inv : String → Option (List Nat))
    (maxM : Nat) (s : SheetData)
    (havail : (inv s.name).getD [] = invOfSheet s) :
    (isTOC s.name = true ∧ processSheet base inv maxM s = .skip "ข้าม Sheet สารบัญ")
    ∨ (isTOC s.name = false ∧ invOfSheet s = []
        ∧ processSheet base inv maxM s = .skip "ไม่พบ matrix ใดๆ")
    ∨ (isTOC s.name = false ∧ invOfSheet s ≠ [] ∧ ∃ sh hr hc,
        s.read = .ok sh ∧ find_main_matrix sh.grid = some (hr, hc)
        ∧ ((widthsOf sh.grid hr hc = [] ∨ heightsOf sh.grid hr hc = [])
             ∧ processSheet base inv maxM s =
                 .skip "ไม่พบ dimensions (ความกว้าง/ความสูง)"
           ∨ (widthsOf sh.grid hr hc ≠ [] ∧ heightsOf sh.grid hr hc ≠ []
             ∧ processSheet base inv maxM s = .done
                 { serie := base
                   typeName := pyStrip s.name
                   description := (gdScan sh.grid).2
                   widthMin := pyMin (widthsOf sh.grid hr hc)
                   widthMax := pyMax (widthsOf sh.grid hr hc)
                   heightMin := pyMin (heightsOf sh.grid hr hc)
                   heightMax := pyMax (heightsOf sh.grid hr hc) }
                 (priceCores base s.name (gdScan sh.grid).1 maxM
                   (matrixColors sh hr hc (invOfSheet s)
                     (widthsOf sh.grid hr hc) (heightsOf sh.grid hr hc))
                   sh.grid hr hc
                   (widthsOf sh.grid hr hc) (heightsOf sh.grid hr hc))))) := by
  by_cases htoc : isTOC s.name = true
  · exact Or.inl ⟨htoc, by simp only [processSheet, if_pos htoc]⟩
  · by_cases hinv : invOfSheet s = []
    · refine Or.inr (Or.inl ⟨Bool.not_eq_true _ ▸ htoc, hinv, ?_⟩)
      simp only [processSheet, if_neg htoc, havail, hinv, List.isEmpty_nil, if_pos]
    · obtain ⟨nm, rd⟩ := s
      simp only at havail hinv ⊢
      cases rd with
      | error e => exact absurd rfl hinv
      | ok sh =>
        obtain ⟨hr, hc, hf⟩ := invOfSheet_ok_ne_nil hinv
        refine Or.inr (Or.inr ⟨Bool.not_eq_true _ ▸ htoc, hinv, sh, hr, hc, rfl, hf, ?_⟩)
        have hemp : (invOfSheet ⟨nm, Except.ok sh⟩).isEmpty = false := by
          cases hiv : invOfSheet ⟨nm, Except.ok sh⟩ with
          | nil => exact absurd hiv hinv
          | cons a t => rfl
        by_cases hdims : widthsOf sh.grid hr hc = [] ∨ heightsOf sh.grid hr hc = []
        · refine Or.inl ⟨hdims, ?_⟩
          simp only [processSheet, if_neg htoc, havail, hemp, Bool.false_eq_true,
            if_false, hf]
          rw [if_pos ?_]
          rcases hdims with h | h
          · exact Or.inl (by rw [h]; rfl)
          · exact Or.inr (by rw [h]; rfl)
        · push_neg at hdims
          refine Or.inr ⟨hdims.1, hdims.2, ?_⟩
          simp only [processSheet, if_neg htoc, havail, hemp, Bool.false_eq_true,
            if_false, hf]
          rw [if_neg ?_]
          rintro (h | h)
          · exact hdims.1 (List.isEmpty_iff.mp h)
          · exact hdims.2 (List.isEmpty_iff.mp h)

lemma outcomeIsDone_skip (r : String) : outcomeIsDone (.skip r) = false := rfl

lemma outcomeIsDone_done (tr : TypeCore) (prs : List PriceCore) :
    outcomeIsDone (.done tr prs) = true := rfl

lemma numberFrom_map_snd : ∀ (n : Nat) (l : List α),
    (numberFrom n l).map Prod.snd = l := by
  intro n l
  induction l generalizing n with
  | nil => rfl
  | cons a t ih =>
    rw [numberFrom, List.map_cons, ih]

lemma processGo_spec (base : String) (inv : String → Option (List Nat))
    (maxM : Nat) : ∀ (l : List SheetData) (st : PState),
    (∀ s ∈ l, ∀ e, processSheet base inv maxM s ≠ .fatal e) →
    ∃ st', processGo base inv maxM l st = .ok st'
      ∧ st'.skippedSheets = st.skippedSheets ++ l.filterMap (outcomeSkip base inv maxM)
      ∧ st'.typeRows.map Prod.snd = st.typeRows.map Prod.snd
          ++ (l.filterMap (outcomeCores base inv maxM)).map Prod.fst
      ∧ st'.priceRows.map Prod.snd = st.priceRows.map Prod.snd
          ++ ((l.filterMap (outcomeCores base inv maxM)).map Prod.snd).flatten
      ∧ st'.processedSheets = st.processedSheets
          + l.countP (fun s => outcomeIsDone (processSheet base inv maxM s)) := by
  intro l
  induction l with
  | nil =>
    intro st _
    exact ⟨st, rfl, by simp, by simp, by simp, by simp [List.countP_nil]⟩
  | cons s t ih =>
    intro st h
    have hs := h s (List.mem_cons_self s t)
    have ht := fun s' hs' => h s' (List.mem_cons_of_mem s hs')
    cases ho : processSheet base inv maxM s with
    | fatal e => exact absurd ho (hs e)
    | skip r =>
      have hsk : outcomeSkip base inv maxM s = some (s.name, r) := by
        unfold outcomeSkip; rw [ho]
      have hco : outcomeCores base inv maxM s = none := by
        unfold outcomeCores; rw [ho]
      obtain ⟨st', hok, hskip, htype, hprice, hproc⟩ :=
        ih { st with skippedSheets := st.skippedSheets ++ [(s.name, r)] } ht
      refine ⟨st', ?_, ?_, ?_, ?_, ?_⟩
      · simp only [processGo, ho]
        exact hok
      · rw [hskip, List.filterMap_cons, hsk]
        simp [List.append_assoc]
      · rw [htype, List.filterMap_cons, hco]
      · rw [hprice, List.filterMap_cons, hco]
      · rw [hproc, List.countP_cons]
        simp [ho, outcomeIsDone_skip]
    | done tr prs =>
      have hsk : outcomeSkip base inv maxM s = none := by
        unfold outcomeSkip; rw [ho]
      have hco : outcomeCores base inv maxM s = some (tr, prs) := by
        unfold outcomeCores; rw [ho]
      obtain ⟨st', hok, hskip, htype, hprice, hproc⟩ :=
        ih { st with
              typeRows := st.typeRows ++ [(st.typeId, tr)]
              typeId := st.typeId + 1
              priceRows := st.priceRows ++ numberFrom st.priceId prs
              priceId := st.priceId + prs.length
              processedSheets := st.processedSheets + 1 } ht
      refine ⟨st', ?_, ?_, ?_, ?_, ?_⟩
      · simp only [processGo, ho]
        exact hok
      · rw [hskip, List.filterMap_cons, hsk]
      · rw [htype, List.filterMap_cons, hco]
        simp [List.append_assoc]
      · rw [hprice, List.filterMap_cons, hco]
        simp [List.append_assoc, numberFrom_map_snd]
      · rw [hproc, List.countP_cons]
        simp only [ho, outcomeIsDone_done, if_pos]
        omega

lemma filterMap_cores_length (base : String) (inv : String → Option (List Nat))
    (maxM : Nat) : ∀ (l : List SheetData),
    (l.filterMap (outcomeCores base inv maxM)).length =
      l.countP (fun s => outcomeIsDone (processSheet base inv maxM s)) := by
  intro l
  induction l with
  | nil => rfl
  | cons s t ih =>
    rw [List.filterMap_cons, List.countP_cons]
    cases ho : processSheet base inv maxM s with
    | fatal e =>
      have h1 : outcomeCores base inv maxM s = none := by unfold outcomeCores; rw [ho]
      have h2 : outcomeIsDone (SheetOutcome.fatal e) = false := rfl
      rw [h1]
      simp [ho, h2, ih]
    | skip r =>
      have h1 : outcomeCores base inv maxM s = none := by unfold outcomeCores; rw [ho]
      rw [h1]
      simp [ho, outcomeIsDone_skip, ih]
    | done tr prs =>
      have h1 : outcomeCores base inv maxM s = some (tr, prs) := by
        unfold outcomeCores; rw [ho]
      rw [h1]
      simp only [List.length_cons, ih, ho, outcomeIsDone_done, if_pos]

lemma process_file_spec (wb : Workbook) (base : String)
    (hnf : ∀ s ∈ wb.sheets, ∀ e,
      processSheet base (scan_all_matrices_in_file wb).2
        (scan_all_matrices_in_file wb).1 s ≠ .fatal e) :
    ∃ res, process_file wb base = .ok res
      ∧ res.skippedSheets = wb.sheets.filterMap
          (outcomeSkip base (scan_all_matrices_in_file wb).2
            (scan_all_matrices_in_file wb).1)
      ∧ res.typeRows.map Prod.snd = (wb.sheets.filterMap
          (outcomeCores base (scan_all_matrices_in_file wb).2
            (scan_all_matrices_in_file wb).1)).map Prod.fst
      ∧ res.priceRows.map Prod.snd = ((wb.sheets.filterMap
          (outcomeCores base (scan_all_matrices_in_file wb).2
            (scan_all_matrices_in_file wb).1)).map Prod.snd).flatten
      ∧ res.processedSheets = wb.sheets.countP (fun s =>
          outcomeIsDone (processSheet base (scan_all_matrices_in_file wb).2
            (scan_all_matrices_in_file wb).1 s))
      ∧ res.typeRows.length = res.processedSheets := by
  obtain ⟨st', hok, hskip, htype, hprice, hproc⟩ :=
    processGo_spec base (scan_all_matrices_in_file wb).2
      (scan_all_matrices_in_file wb).1 wb.sheets
      { priceRows := [], typeRows := [], priceId := 1, typeId := 1,
        processedSheets := 0, skippedSheets := [] } hnf
  have hfile : process_file wb base = .ok
      { priceRows := st'.priceRows
        typeRows := st'.typeRows
        totalRecords := st'.priceRows.length
        processedSheets := st'.processedSheets
        skippedSheets := st'.skippedSheets
        warnings := [] } := by
    simp only [process_file, hok]
  refine ⟨_, hfile, ?_, ?_, ?_, ?_, ?_⟩
  · simpa using hskip
  · simpa using htype
  · simpa using hprice
  · simpa using hproc
  · show st'.typeRows.length = st'.processedSheets
    have hlen : st'.typeRows.length = (st'.typeRows.map Prod.snd).length := by
      rw [List.length_map]
    rw [hlen, htype]
    simp only [List.length_append, List.length_map, List.map_nil, List.length_nil]
    rw [filterMap_cores_length]
    simpa using hproc.symm

lemma no_fatal_of_nodup (wb : Workbook) (base : String)
    (hnd : (sheetNames wb).Nodup) :
    ∀ s ∈ wb.sheets, ∀ e,
      processSheet base (scan_all_matrices_in_file wb).2
        (scan_all_matrices_in_file wb).1 s ≠ .fatal e := by
  intro s hs e
  by_cases htoc : isTOC s.name = true
  · simp only [processSheet, if_pos htoc]
    intro hh
    exact SheetOutcome.noConfusion hh
  · have havail : ((scan_all_matrices_in_file wb).2 s.name).getD [] = invOfSheet s := by
      rw [scan_dict_lookup wb s hs htoc hnd]
      rfl
    rcases processSheet_spec base _ _ s havail with
      ⟨_, h⟩ | ⟨_, _, h⟩ | ⟨_, _, sh, hr, hc, _, _, ⟨_, h⟩ | ⟨_, _, h⟩⟩ <;>
      rw [h] <;> intro hh <;> exact SheetOutcome.noConfusion hh

/-! ## Claim C1 — per-sheet failures never abort the workbook -/

/-- C1: for a workbook with distinct sheet names (an Excel invariant),
`process_file` always returns a result — it never aborts because of a
single sheet.  The only per-sheet operation that can raise is the grid
load, and a sheet whose load raises is caught (by the scan phase's
`try/except`), recorded in `skippedSheets` with a reason string, and
the loop continues: the processed-sheet count still counts every sheet
whose own outcome is a successful extraction. -/
theorem sheet_exception_handling (wb : Workbook) (base : String)
    (hnd : (sheetNames wb).Nodup) :
    ∃ res, process_file wb base = .ok res
      ∧ (∀ s ∈ wb.sheets, (∃ e, s.read = .error e) →
          ∃ r, (s.name, r) ∈ res.skippedSheets)
      ∧ res.processedSheets = wb.sheets.countP (fun s =>
          outcomeIsDone (processSheet base (scan_all_matrices_in_file wb).2
            (scan_all_matrices_in_file wb).1 s)) := by
  obtain ⟨res, hok, hskip, _, _, hproc, _⟩ :=
    process_file_spec wb base (no_fatal_of_nodup wb base hnd)
  refine ⟨res, hok, ?_, hproc⟩
  rintro s hs ⟨e, he⟩
  by_cases htoc : isTOC s.name = true
  · refine ⟨"ข้าม Sheet สารบัญ", ?_⟩
    rw [hskip]
    refine List.mem_filterMap.mpr ⟨s, hs, ?_⟩
    unfold outcomeSkip
    simp only [processSheet, if_pos htoc]
  · have hinv : invOfSheet s = [] := by
      obtain ⟨nm, rd⟩ := s
      have he' : rd = .error e := he
      rw [he']
      rfl
    have havail : ((scan_all_matrices_in_file wb).2 s.name).getD []
        = invOfSheet s := by
      rw [scan_dict_lookup wb s hs htoc hnd]
      rfl
    rcases processSheet_spec base _ _ s havail with
      ⟨htoc', _⟩ | ⟨_, _, h⟩ | ⟨_, hne, _⟩
    · exact absurd htoc' htoc
    · refine ⟨"ไม่พบ matrix ใดๆ", ?_⟩
      rw [hskip]
      refine List.mem_filterMap.mpr ⟨s, hs, ?_⟩
      unfold outcomeSkip
      rw [h]
    · exact absurd hinv hne

/-- Witness for C1: the example workbook has distinct sheet names, and
its sheet `"B"` (whose load raises) ends up skipped while the workbook
still succeeds. -/
theorem sheet_exception_handling_witness :
    (sheetNames exWorkbook).Nodup
    ∧ ∃ res, process_file exWorkbook "S" = .ok res
      ∧ (∀ s ∈ exWorkbook.sheets, (∃ e, s.read = .error e) →
          ∃ r, (s.name, r) ∈ res.skippedSheets)
      ∧ res.processedSheets = exWorkbook.sheets.countP (fun s =>
          outcomeIsDone (processSheet "S" (scan_all_matrices_in_file exWorkbook).2
            (scan_all_matrices_in_file exWorkbook).1 s)) :=
  ⟨by decide, sheet_exception_handling exWorkbook "S" (by decide)⟩

/-! ## Claim C9 — exactly which sheets are skipped -/

lemma skip_done_partition (base : String) (inv : String → Option (List Nat))
    (maxM : Nat) : ∀ (l : List SheetData),
    (∀ s ∈ l, ∀ e, processSheet base inv maxM s ≠ .fatal e) →
    l.countP (fun s => outcomeIsDone (processSheet base inv maxM s))
      + (l.filterMap (outcomeSkip base inv maxM)).length = l.length := by
  intro l
  induction l with
  | nil => intro _; rfl
  | cons s t ih =>
    intro h
    have hs := h s (List.mem_cons_self s t)
    have ht := ih (fun s' hs' => h s' (List.mem_cons_of_mem s hs'))
    rw [List.countP_cons, List.filterMap_cons, List.length_cons]
    cases ho : processSheet base inv maxM s with
    | fatal e => exact absurd ho (hs e)
    | skip r =>
      have h1 : outcomeSkip base inv maxM s = some (s.name, r) := by
        unfold outcomeSkip; rw [ho]
      rw [h1]
      simp [ho, outcomeIsDone_skip]
      omega
    | done tr prs =>
      have h1 : outcomeSkip base inv maxM s = none := by
        unfold outcomeSkip; rw [ho]
      rw [h1]
      simp [ho, outcomeIsDone_done]
      omega

lemma outcomeSkip_eq_some {base : String} {inv : String → Option (List Nat)}
    {maxM : Nat} {s : SheetData} {nm r : String}
    (h : outcomeSkip base inv maxM s = some (nm, r)) :
    s.name = nm ∧ processSheet base inv maxM s = .skip r := by
  unfold outcomeSkip at h
  cases ho : processSheet base inv maxM s with
  | fatal e => rw [ho] at h; exact absurd h (by simp)
  | done tr prs => rw [ho] at h; exact absurd h (by simp)
  | skip r' =>
    rw [ho] at h
    simp only [Option.some.injEq, Prod.mk.injEq] at h
    exact ⟨h.1, by rw [h.2]⟩

/-- C9: with distinct sheet names, a sheet appears in `skippedSheets`
(with a recorded reason) precisely when its trimmed lowercase name is
the reserved contents name, or its scan inventory is empty, or its
main header is found but the resolved widths or heights are empty; all
other sheets are processed (the processed and skipped counts
partition the sheets) and only processed sheets contribute Type
records. -/
theorem sheet_skip_characterization (wb : Workbook) (base : String)
    (hnd : (sheetNames wb).Nodup) :
    ∃ res, process_file wb base = .ok res
      ∧ (∀ s ∈ wb.sheets, ((∃ r, (s.name, r) ∈ res.skippedSheets) ↔ sheetSkipCond s))
      ∧ res.processedSheets + res.skippedSheets.length = wb.sheets.length
      ∧ res.typeRows.length = res.processedSheets := by
  have hnf := no_fatal_of_nodup wb base hnd
  obtain ⟨res, hok, hskip, _, _, hproc, hlen⟩ := process_file_spec wb base hnf
  refine ⟨res, hok, ?_, ?_, hlen⟩
  · intro s hs
    constructor
    · rintro ⟨r, hr⟩
      rw [hskip] at hr
      obtain ⟨s', hs', hval⟩ := List.mem_filterMap.mp hr
      obtain ⟨hname, hps⟩ := outcomeSkip_eq_some hval
      have heq : s' = s := List.inj_on_of_nodup_map hnd hs' hs hname
      subst heq
      by_cases htoc : isTOC s'.name = true
      · exact Or.inl htoc
      · have havail : ((scan_all_matrices_in_file wb).2 s'.name).getD []
            = invOfSheet s' := by
          rw [scan_dict_lookup wb s' hs' htoc hnd]; rfl
        rcases processSheet_spec base _ _ s' havail with
          ⟨htoc', _⟩ | ⟨_, hinv, _⟩ | ⟨_, _, sh, hr', hc', hrd, hf, hcase⟩
        · exact absurd htoc' htoc
        · exact Or.inr (Or.inl hinv)
        · rcases hcase with ⟨hdims, _⟩ | ⟨_, _, hdone⟩
          · exact Or.inr (Or.inr ⟨sh, hr', hc', hrd, hf, hdims⟩)
          · rw [hps] at hdone
            exact absurd hdone (by simp)
    · intro hcond
      by_cases htoc : isTOC s.name = true
      · refine ⟨"ข้าม Sheet สารบัญ", ?_⟩
        rw [hskip]
        refine List.mem_filterMap.mpr ⟨s, hs, ?_⟩
        unfold outcomeSkip
        simp only [processSheet, if_pos htoc]
      · have havail : ((scan_all_matrices_in_file wb).2 s.name).getD []
            = invOfSheet s := by
          rw [scan_dict_lookup wb s hs htoc hnd]; rfl
        rcases processSheet_spec base _ _ s havail with
          ⟨htoc', _⟩ | ⟨_, _, h⟩ | ⟨_, hne, sh, hr', hc', hrd, hf, hcase⟩
        · exact absurd htoc' htoc
        · refine ⟨"ไม่พบ matrix ใดๆ", ?_⟩
          rw [hskip]
          refine List.mem_filterMap.mpr ⟨s, hs, ?_⟩
          unfold outcomeSkip
          rw [h]
        · rcases hcase with ⟨_, h⟩ | ⟨hwne, hhne, hdone⟩
          · refine ⟨"ไม่พบ dimensions (ความกว้าง/ความสูง)", ?_⟩
            rw [hskip]
            refine List.mem_filterMap.mpr ⟨s, hs, ?_⟩
            unfold outcomeSkip
            rw [h]
          · exfalso
            rcases hcond with h | h | ⟨sh2, hr2, hc2, hrd2, hf2, hdims2⟩
            · exact absurd h htoc
            · exact hne h
            · rw [hrd] at hrd2
              cases hrd2
              rw [hf] at hf2
              cases hf2
              rcases hdims2 with h | h
              · exact hwne h
              · exact hhne h
  · rw [hproc, hskip, ← skip_done_partition base _ _ wb.sheets hnf]

/-- Witness for C9 at the example workbook. -/
theorem sheet_skip_characterization_witness :
    (sheetNames exWorkbook).Nodup
    ∧ ∃ res, process_file exWorkbook "S" = .ok res
      ∧ (∀ s ∈ exWorkbook.sheets,
          ((∃ r, (s.name, r) ∈ res.skippedSheets) ↔ sheetSkipCond s))
      ∧ res.processedSheets + res.skippedSheets.length = exWorkbook.sheets.length
      ∧ res.typeRows.length = res.processedSheets :=
  ⟨by decide, sheet_skip_characterization exWorkbook "S" (by decide)⟩

/-! ## Claim C5 — uniform color-column schema -/

lemma map_pair_fst {β : Type} (g : Nat → β) : ∀ (l : List Nat),
    (l.map (fun i => (i, g i))).map Prod.fst = l := by
  intro l
  induction l with
  | nil => rfl
  | cons a t ih => simp only [List.map_cons, ih]

lemma mcFold_not_mem (sh : Sheet) (hr hc : Nat) (widths heights : List PyNum) :
    ∀ (l : List Nat) (acc : Nat → Option ColorMap) (i : Nat),
    i ∉ l → acc i = none →
    (l.foldl (mcStep sh hr hc widths heights) acc) i = none := by
  intro l
  induction l with
  | nil => intro acc i _ hacc; exact hacc
  | cons t l' ih =>
    intro acc i hi hacc
    have hit : i ≠ t := fun h => hi (h ▸ List.mem_cons_self t l')
    have hil : i ∉ l' := fun h => hi (List.mem_cons_of_mem t h)
    rw [List.foldl_cons]
    refine ih _ i hil ?_
    unfold mcStep
    by_cases h1 : t = 1
    · rw [if_pos h1]; exact hacc
    · rw [if_neg h1]
      cases find_thickness_matrix_in_column_a sh.grid t with
      | none => exact hacc
      | some hrThick =>
        simp only
        rw [if_neg hit]
        exact hacc

lemma matrixColors_not_mem (sh : Sheet) (hr hc : Nat) (avail : List Nat)
    (widths heights : List PyNum) (i : Nat) (hi : i ∉ avail) :
    matrixColors sh hr hc avail widths heights i = none := by
  unfold matrixColors
  refine mcFold_not_mem sh hr hc widths heights avail _ i hi ?_
  by_cases h1 : 1 ∈ avail
  · simp only [if_pos h1]
    rw [if_neg (fun h => hi (by rw [h]; exact h1))]
  · simp only [if_neg h1]

lemma priceCores_mem_colors (base nm : String) (gq : PyNum) (maxM : Nat)
    (mc : Nat → Option ColorMap) (g : Grid) (hr hc : Nat)
    (widths heights : List PyNum) (core : PriceCore)
    (h : core ∈ priceCores base nm gq maxM mc g hr hc widths heights) :
    core.colors = (List.range' 1 maxM).map (fun i =>
      (i, colorLookup mc i (core.height.val, core.width.val))) := by
  unfold priceCores at h
  obtain ⟨hp, _, hmem⟩ := List.mem_flatMap.mp h
  obtain ⟨wp, _, hval⟩ := List.mem_filterMap.mp hmem
  cases hn : to_number (g.cell (hr + 1 + hp.1) (hc + 1 + wp.1)) with
  | none => rw [hn] at hval; exact absurd hval (by simp)
  | some p =>
    rw [hn] at hval
    simp only [Option.some.injEq] at hval
    rw [← hval]

lemma scan_fst_mono : ∀ (l : List SheetData)
    (acc : Nat × (String → Option (List Nat))),
    acc.1 ≤ (l.foldl scanStep acc).1 := by
  intro l
  induction l with
  | nil => intro acc; exact Nat.le_refl _
  | cons s t ih =>
    intro acc
    rw [List.foldl_cons]
    refine Nat.le_trans ?_ (ih (scanStep acc s))
    unfold scanStep
    by_cases htoc : isTOC s.name = true
    · rw [if_pos htoc]
    · rw [if_neg htoc]
      simp only
      by_cases hgt : (invOfSheet s).length > acc.1
      · rw [if_pos hgt]; omega
      · rw [if_neg hgt]

lemma scan_fst_ge_aux : ∀ (l : List SheetData)
    (acc : Nat × (String → Option (List Nat))) (s : SheetData),
    s ∈ l → isTOC s.name = false →
    (invOfSheet s).length ≤ (l.foldl scanStep acc).1 := by
  intro l
  induction l with
  | nil => intro acc s hs; exact absurd hs (List.not_mem_nil s)
  | cons x t ih =>
    intro acc s hs htoc
    rcases List.mem_cons.mp hs with rfl | hst
    · rw [List.foldl_cons]
      refine Nat.le_trans ?_ (scan_fst_mono t (scanStep acc s))
      unfold scanStep
      rw [if_neg (by rw [htoc]; exact Bool.false_ne_true)]
      simp only
      by_cases hgt : (invOfSheet s).length > acc.1
      · rw [if_pos hgt]
      · rw [if_neg hgt]; omega
    · rw [List.foldl_cons]
      exact ih _ s hst htoc

lemma scan_fst_attain : ∀ (l : List SheetData)
    (acc : Nat × (String → Option (List Nat))),
    (l.foldl scanStep acc).1 = acc.1
    ∨ ∃ s ∈ l, isTOC s.name = false
        ∧ (invOfSheet s).length = (l.foldl scanStep acc).1 := by
  intro l
  induction l with
  | nil => intro acc; exact Or.inl rfl
  | cons x t ih =>
    intro acc
    rw [List.foldl_cons]
    rcases ih (scanStep acc x) with h | ⟨s, hs, htoc, hlen⟩
    · rw [h]
      unfold scanStep
      by_cases htoc : isTOC x.name = true
      · rw [if_pos htoc]
        exact Or.inl rfl
      · rw [if_neg htoc]
        simp only
        by_cases hgt : (invOfSheet x).length > acc.1
        · rw [if_pos hgt]
          exact Or.inr ⟨x, List.mem_cons_self x t,
            Bool.not_eq_true _ ▸ htoc, rfl⟩
        · rw [if_neg hgt]
          exact Or.inl rfl
    · exact Or.inr ⟨s, List.mem_cons_of_mem x hs, htoc, hlen⟩

lemma processSheet_done_not_toc {base : String} {inv : String → Option (List Nat)}
    {maxM : Nat} {s : SheetData} {tr : TypeCore} {prs : List PriceCore}
    (h : processSheet base inv maxM s = .done tr prs) :
    isTOC s.name = false := by
  by_contra hc
  have htoc : isTOC s.name = true := by
    cases hv : isTOC s.name
    · exact absurd hv hc
    · rfl
  rw [processSheet, if_pos htoc] at h
  exact SheetOutcome.noConfusion h

/-- C5: with distinct sheet names, every emitted Price record carries
exactly the color columns `1 .. N` where `N` is the scan's global
maximum matrix count (`N` bounds every non-contents sheet's inventory
length and is attained by one of them unless it is the initial `1`);
each column value is the sheet's own matrix lookup with `"FFFFFF"`
default, so an index absent from the record's sheet's inventory is
always filled `"FFFFFF"` (and likewise a `(height, width)` pair absent
from a matrix, by the `getD` in `colorLookup`). -/
theorem price_record_schema (wb : Workbook) (base : String)
    (hnd : (sheetNames wb).Nodup) :
    ∃ res, process_file wb base = .ok res
      ∧ (∀ pr ∈ res.priceRows,
          pr.2.colors.map Prod.fst = List.range' 1 (scan_all_matrices_in_file wb).1
          ∧ ∃ s ∈ wb.sheets, ∃ sh hr hc,
              s.read = .ok sh ∧ find_main_matrix sh.grid = some (hr, hc)
              ∧ ∀ ic ∈ pr.2.colors,
                  ic.2 = colorLookup
                    (matrixColors sh hr hc (invOfSheet s)
                      (widthsOf sh.grid hr hc) (heightsOf sh.grid hr hc))
                    ic.1 (pr.2.height.val, pr.2.width.val)
                  ∧ (ic.1 ∉ invOfSheet s → ic.2 = "FFFFFF"))
      ∧ (∀ s ∈ wb.sheets, isTOC s.name = false →
          (invOfSheet s).length ≤ (scan_all_matrices_in_file wb).1)
      ∧ ((scan_all_matrices_in_file wb).1 = 1
          ∨ ∃ s ∈ wb.sheets, isTOC s.name = false
              ∧ (invOfSheet s).length = (scan_all_matrices_in_file wb).1) := by
  have hnf := no_fatal_of_nodup wb base hnd
  obtain ⟨res, hok, _, _, hprice, _, _⟩ := process_file_spec wb base hnf
  refine ⟨res, hok, ?_, ?_, ?_⟩
  · intro pr hpr
    have hsnd : pr.2 ∈ res.priceRows.map Prod.snd :=
      List.mem_map_of_mem Prod.snd hpr
    rw [hprice] at hsnd
    obtain ⟨L, hL, hcore⟩ := List.mem_flatten.mp hsnd
    obtain ⟨pairc, hpairc, hLval⟩ := List.mem_map.mp hL
    obtain ⟨s, hs, hval⟩ := List.mem_filterMap.mp hpairc
    have hdone : processSheet base (scan_all_matrices_in_file wb).2
        (scan_all_matrices_in_file wb).1 s = .done pairc.1 pairc.2 := by
      unfold outcomeCores at hval
      cases ho : processSheet base (scan_all_matrices_in_file wb).2
          (scan_all_matrices_in_file wb).1 s with
      | fatal e => rw [ho] at hval; exact absurd hval (by simp)
      | skip r => rw [ho] at hval; exact absurd hval (by simp)
      | done tr prs =>
        rw [ho] at hval
        simp only [Option.some.injEq] at hval
        rw [← hval]
    have htoc := processSheet_done_not_toc hdone
    have havail : ((scan_all_matrices_in_file wb).2 s.name).getD []
        = invOfSheet s := by
      rw [scan_dict_lookup wb s hs (by rw [htoc]; exact Bool.false_ne_true) hnd]
      rfl
    rcases processSheet_spec base _ _ s havail with
      ⟨htoc', _⟩ | ⟨_, _, h⟩ | ⟨_, _, sh, hr, hc, hrd, hf, hcase⟩
    · rw [htoc] at htoc'; exact absurd htoc' Bool.false_ne_true
    · rw [h] at hdone; exact absurd hdone (by simp)
    · rcases hcase with ⟨_, h⟩ | ⟨_, _, h⟩
      · rw [h] at hdone; exact absurd hdone (by simp)
      · rw [h] at hdone
        simp only [SheetOutcome.done.injEq] at hdone
        have hprs : pairc.2 = priceCores base s.name (gdScan sh.grid).1
            (scan_all_matrices_in_file wb).1
            (matrixColors sh hr hc (invOfSheet s)
              (widthsOf sh.grid hr hc) (heightsOf sh.grid hr hc))
            sh.grid hr hc (widthsOf sh.grid hr hc) (heightsOf sh.grid hr hc) :=
          hdone.2.symm
        rw [← hLval, hprs] at hcore
        have hcolors := priceCores_mem_colors _ _ _ _ _ _ _ _ _ _ _ hcore
        constructor
        · rw [hcolors, map_pair_fst]
        · refine ⟨s, hs, sh, hr, hc, hrd, hf, ?_⟩
          intro ic hic
          rw [hcolors] at hic
          obtain ⟨i, hi, hiv⟩ := List.mem_map.mp hic
          have h1 : ic.1 = i := by rw [← hiv]
          have h2 : ic.2 = colorLookup
              (matrixColors sh hr hc (invOfSheet s)
                (widthsOf sh.grid hr hc) (heightsOf sh.grid hr hc))
              i (pr.2.height.val, pr.2.width.val) := by rw [← hiv]
          refine ⟨by rw [h1, h2], ?_⟩
          intro hnotin
          rw [h2, colorLookup,
            matrixColors_not_mem sh hr hc (invOfSheet s) _ _ i (h1 ▸ hnotin)]
  · intro s hs htoc
    exact scan_fst_ge_aux wb.sheets _ s hs htoc
  · rcases scan_fst_attain wb.sheets (1, fun _ => none) with h | ⟨s, hs, htoc, hlen⟩
    · exact Or.inl h
    · exact Or.inr ⟨s, hs, htoc, hlen⟩

/-- Witness for C5 at the example workbook. -/
theorem price_record_schema_witness :
    (sheetNames exWorkbook).Nodup
    ∧ ∃ res, process_file exWorkbook "S" = .ok res
      ∧ (∀ pr ∈ res.priceRows,
          pr.2.colors.map Prod.fst =
            List.range' 1 (scan_all_matrices_in_file exWorkbook).1
          ∧ ∃ s ∈ exWorkbook.sheets, ∃ sh hr hc,
              s.read = .ok sh ∧ find_main_matrix sh.grid = some (hr, hc)
              ∧ ∀ ic ∈ pr.2.colors,
                  ic.2 = colorLookup
                    (matrixColors sh hr hc (invOfSheet s)
                      (widthsOf sh.grid hr hc) (heightsOf sh.grid hr hc))
                    ic.1 (pr.2.height.val, pr.2.width.val)
                  ∧ (ic.1 ∉ invOfSheet s → ic.2 = "FFFFFF"))
      ∧ (∀ s ∈ exWorkbook.sheets, isTOC s.name = false →
          (invOfSheet s).length ≤ (scan_all_matrices_in_file exWorkbook).1)
      ∧ ((scan_all_matrices_in_file exWorkbook).1 = 1
          ∨ ∃ s ∈ exWorkbook.sheets, isTOC s.name = false
              ∧ (invOfSheet s).length = (scan_all_matrices_in_file exWorkbook).1) :=
  ⟨by decide, price_record_schema exWorkbook "S" (by decide)⟩

end Tostem
